import Mathlib

/-!
Shallow embedding of the rorchat message-synchronization core:
the client poll/merge logic of the visitor page, the server routes for
messages (pagination, polling, send), reactions (visitor and admin toggle),
typing freshness, and the in-process rate limiter.

Conventions:
- JavaScript timestamps are embedded as `Int` (milliseconds), so that
  subtraction behaves exactly as in the source.
- Optional-and-possibly-empty string fields tested with JS truthiness
  (`if (x)`) are embedded as `Option String` together with `strTruthy`,
  which is falsy on both `none` (undefined/null) and `some ""`.
- Database tables are embedded as lists of row structures; SQL filters and
  `ORDER BY` clauses become list filters and an insertion sort.
-/

namespace Rorchat

/-- JavaScript truthiness of an optional string (null/undefined and `""` are falsy). -/
def strTruthy : Option String → Bool
  | none => false
  | some s => !s.isEmpty

/-- A reaction group as aggregated for the client
(`interface Reaction` in the visitor page). -/
structure Reaction where
  emoji : String
  count : Nat
  hasAdmin : Bool
  hasUser : Bool
deriving Repr, DecidableEq

/-- Denormalized reply preview attached to a message (`interface ReplyTo`). -/
structure ReplyTo where
  id : String
  content : String
  is_admin : Bool
deriving Repr, DecidableEq

/-- A client-side message (`interface Message` in the visitor page).
`id = none` is an optimistic, not-yet-confirmed local entry. -/
structure Msg where
  id : Option String := none
  content : String
  is_admin : Bool
  created_at : String := ""
  reactions : List Reaction := []
  reply_to : Option ReplyTo := none
deriving Repr, DecidableEq

/-- Ids already present in the local list:
`new Set(prev.map(m => m.id).filter(Boolean))`. -/
def existingIds (prev : List Msg) : List String :=
  prev.filterMap fun m =>
    match m.id with
    | some s => if s.isEmpty then none else some s
    | none => none

/-- A poll-response message is genuinely new:
`data.messages.filter(m => m.id && !existingIds.has(m.id))`. -/
def isNewMsg (prev : List Msg) (m : Msg) : Bool :=
  match m.id with
  | some s => !s.isEmpty && !(existingIds prev).contains s
  | none => false

/-- The poll-merge state updater of the visitor page: drop response messages
whose id is already known; if none are left return the previous list
unchanged; otherwise drop optimistic (id-less) local entries matched by
content and sender flag against some new message, and append the new
messages in server order. -/
def mergeNew (prev data : List Msg) : List Msg :=
  let newMessages := data.filter (isNewMsg prev)
  if newMessages.isEmpty then prev
  else
    let prevWithoutOptimistic := prev.filter fun m =>
      strTruthy m.id ||
        !(newMessages.any fun nm => nm.content == m.content && nm.is_admin == m.is_admin)
    prevWithoutOptimistic ++ newMessages

/-- The cursor for the forward poll: id of the most recent local message with
a (truthy) server-assigned id, scanning from the end of the list. -/
def lastConfirmedId (prev : List Msg) : Option String :=
  match prev.reverse.find? (fun m => strTruthy m.id) with
  | some m => m.id
  | none => none

/-- Result of one poll-interval tick: whether a request was issued at all,
and the resulting local message list. -/
structure TickResult where
  fetched : Bool
  messages : List Msg
deriving Repr, DecidableEq

/-- One tick of the 2-second poll interval of the visitor page. The first
guard is `Date.now() - lastOptimisticUpdateRef.current < 3000`: within that
window the tick returns before issuing any request. Otherwise a request is
issued (with the `after` cursor when one exists) and the response `resp` is
handled: a nonempty response goes through `mergeNew`; an empty response
replaces the list only in the no-cursor (initial-load) case. `Nat`
subtraction truncates at zero, which matches the JS comparison: a negative
difference is also `< 3000`. -/
def pollTick (now lastOptimistic : Nat) (prev : List Msg) (resp : List Msg) : TickResult :=
  if now - lastOptimistic < 3000 then
    { fetched := false, messages := prev }
  else if 0 < resp.length then
    { fetched := true, messages := mergeNew prev resp }
  else if (lastConfirmedId prev).isNone then
    { fetched := true, messages := resp }
  else
    { fetched := true, messages := prev }

/-! ### Claim C1: optimistic echo collapse -/

/-- C1: the local list holds an id-less optimistic echo of content `c` sent
by the visitor, every local entry of content `c` is such an echo, and the
poll response's entries of content `c` are exactly one persisted message
`srv` with the same sender flag and a fresh, truthy server id. Then the
merged list has exactly one entry of content `c`, namely `srv` — the echo is
collapsed into the persisted message, never duplicated. -/
theorem mergeNew_echo_collapse (prev data : List Msg) (c : String) (srv : Msg) (i : String)
    (_hecho : ∃ m ∈ prev, m.id = none ∧ m.content = c ∧ m.is_admin = false)
    (hall : ∀ m ∈ prev, m.content = c → m.id = none ∧ m.is_admin = false)
    (hdata : data.filter (fun m => m.content == c) = [srv])
    (hsrvid : srv.id = some i) (hne : i ≠ "") (hfresh : i ∉ existingIds prev)
    (hsrvadmin : srv.is_admin = false) :
    (mergeNew prev data).filter (fun m => m.content == c) = [srv] := by
  have hsrvc : srv.content = c := by
    have : srv ∈ data.filter (fun m => m.content == c) := by rw [hdata]; exact List.mem_singleton.mpr rfl
    simpa using (List.mem_filter.mp this).2
  have hiempty : i.isEmpty = false := by
    rcases h : i.isEmpty with _ | _
    · rfl
    · exact absurd ((String.isEmpty_iff i).mp h) hne
  have hcontains : (existingIds prev).contains i = false := by
    rcases h : (existingIds prev).contains i with _ | _
    · rfl
    · exact absurd (List.mem_of_elem_eq_true h) hfresh
  have hnew : isNewMsg prev srv = true := by
    simp [isNewMsg, hsrvid, hiempty, hcontains]
    exact hfresh
  have hsrv_mem : srv ∈ data.filter (isNewMsg prev) := by
    have : srv ∈ data := by
      have : srv ∈ data.filter (fun m => m.content == c) := by rw [hdata]; exact List.mem_singleton.mpr rfl
      exact (List.mem_filter.mp this).1
    exact List.mem_filter.mpr ⟨this, hnew⟩
  have hnonempty : (data.filter (isNewMsg prev)).isEmpty = false := by
    rcases h : data.filter (isNewMsg prev) with _ | _
    · rw [h] at hsrv_mem; simp at hsrv_mem
    · rfl
  unfold mergeNew
  simp only [hnonempty, Bool.false_eq_true, if_false, List.filter_append]
  have hleft :
      (prev.filter fun m =>
          strTruthy m.id ||
            !((data.filter (isNewMsg prev)).any fun nm =>
                nm.content == m.content && nm.is_admin == m.is_admin)).filter
        (fun m => m.content == c) = [] := by
    rw [List.filter_eq_nil_iff]
    intro m hm
    rcases List.mem_filter.mp hm with ⟨hmem, hkeep⟩
    intro hmc
    have hmc' : m.content = c := by simpa using hmc
    obtain ⟨hid, hadm⟩ := hall m hmem hmc'
    have hany : ((data.filter (isNewMsg prev)).any fun nm =>
        nm.content == m.content && nm.is_admin == m.is_admin) = true := by
      rw [List.any_eq_true]
      exact ⟨srv, hsrv_mem, by simp [hsrvc, hmc', hsrvadmin, hadm]⟩
    rw [hid, hany] at hkeep
    simp [strTruthy] at hkeep
  have hright :
      ((data.filter (isNewMsg prev)).filter fun m => m.content == c) = [srv] := by
    rw [List.filter_filter]
    have hcomm : data.filter (fun a => (a.content == c) && isNewMsg prev a) =
        data.filter (fun a => isNewMsg prev a && (a.content == c)) :=
      List.filter_congr (fun x _ => Bool.and_comm _ _)
    rw [hcomm, ← List.filter_filter, hdata]
    simp [hnew]
  rw [hleft, hright]
  simp

/-- Witness for C1: the spec's concrete scenario. The local list holds the
optimistic echo of `"hello"`; the poll returns the persisted message with id
`"m42"`; the merged list has exactly that one `"hello"` entry. -/
theorem mergeNew_echo_collapse_witness :
    (mergeNew [{ content := "hello", is_admin := false }]
        [{ id := some "m42", content := "hello", is_admin := false }]).filter
      (fun m => m.content == "hello") =
      [{ id := some "m42", content := "hello", is_admin := false }] :=
  mergeNew_echo_collapse _ _ "hello" _ "m42"
    ⟨{ content := "hello", is_admin := false }, by decide⟩
    (by decide) (by decide) rfl (by decide) (by decide) rfl

/-! ### Claim C3: idempotent merge -/

/-- C3: if every message of a poll response has an id already present in the
local list, the merge step returns the local list unchanged — the updater
returns the previous list itself, so no state update is triggered. -/
theorem mergeNew_idempotent (prev data : List Msg)
    (h : ∀ m ∈ data, ∃ s, m.id = some s ∧ s ∈ existingIds prev) :
    mergeNew prev data = prev := by
  have hfilter : data.filter (isNewMsg prev) = [] := by
    rw [List.filter_eq_nil_iff]
    intro m hm
    obtain ⟨s, hid, hmem⟩ := h m hm
    have hc : (existingIds prev).contains s = true := List.elem_eq_true_of_mem hmem
    simp only [isNewMsg, hid, hc]
    simp
  simp [mergeNew, hfilter]

/-- Witness for C3: a one-message list re-delivered by the poll is merged to
the unchanged list. -/
theorem mergeNew_idempotent_witness :
    mergeNew [{ id := some "m1", content := "hi", is_admin := false }]
      [{ id := some "m1", content := "hi", is_admin := false }] =
      [{ id := some "m1", content := "hi", is_admin := false }] :=
  mergeNew_idempotent _ _ (by
    intro m hm
    simp only [List.mem_singleton] at hm
    subst hm
    exact ⟨"m1", rfl, by decide⟩)

/-! ### Claim C5: optimistic suppression window

The claim says a poll tick within the window still merges the response
normally and only the initial, path-replacing load is skipped. The code
checks the window at the very top of the tick and returns before issuing
any request, so within the window nothing is fetched and nothing is merged.
-/

/-- Counterexample for C5: one second after an optimistic send (tick time
1000, last optimistic update 0), the tick leaves the list untouched and
issues no request, even though a normal merge of the pending response would
have collapsed the echo into the persisted message. -/
theorem pollTick_window_skips_merge_cex :
    pollTick 1000 0 [{ content := "hello", is_admin := false }]
        [{ id := some "m42", content := "hello", is_admin := false }] =
      { fetched := false, messages := [{ content := "hello", is_admin := false }] } ∧
    mergeNew [{ content := "hello", is_admin := false }]
        [{ id := some "m42", content := "hello", is_admin := false }] =
      [{ id := some "m42", content := "hello", is_admin := false }] := by
  constructor
  · rfl
  · rfl

/-- C5 amended: every poll tick within 3000 ms of the last optimistic
mutation is skipped entirely — no request is issued and the message list is
left unchanged, so neither the normal merge nor the initial load runs; a
tick at or past the window with a nonempty response performs the normal
merge. -/
theorem pollTick_suppression (now lastOpt : Nat) (prev resp : List Msg) :
    (now - lastOpt < 3000 →
      pollTick now lastOpt prev resp = { fetched := false, messages := prev }) ∧
    (3000 ≤ now - lastOpt → resp ≠ [] →
      pollTick now lastOpt prev resp = { fetched := true, messages := mergeNew prev resp }) := by
  constructor
  · intro h
    simp [pollTick, h]
  · intro h hne
    have h1 : ¬ now - lastOpt < 3000 := by omega
    have h2 : 0 < resp.length := List.length_pos.mpr hne
    simp [pollTick, h1, h2]

/-- Witness for C5's amended statement: a tick inside the window is skipped;
a tick outside the window merges a nonempty response. -/
theorem pollTick_suppression_witness :
    pollTick 1000 0 [] [] = { fetched := false, messages := [] } ∧
    pollTick 5000 0 [] [{ id := some "m1", content := "hi", is_admin := true }] =
      { fetched := true,
        messages := mergeNew [] [{ id := some "m1", content := "hi", is_admin := true }] } :=
  ⟨(pollTick_suppression 1000 0 [] []).1 (by decide),
   (pollTick_suppression 5000 0 [] [{ id := some "m1", content := "hi", is_admin := true }]).2
      (by decide) (by decide)⟩

/-! ### Claim C6: client reaction toggle

`handleReaction` of the visitor page, restricted to the reaction list of the
targeted message. The source finds the target emoji's group by
`findIndex`; if found and the user's flag is set, it splices the group out
when `count <= 1 && !hasAdmin` and otherwise decrements it and clears the
flag; if found without the user's flag it keeps only the groups that are
neither the target nor user-flagged (`filter((r, i) => i !== existingIdx &&
!r.hasUser)`) and appends the incremented, flagged target; if not found it
decrements every user-flagged group, prunes zero counts, and appends a fresh
count-1 flagged group.
-/

/-- The client-side optimistic reaction toggle on one message's groups. -/
def applyReaction (reactions : List Reaction) (emoji : String) : List Reaction :=
  match reactions.findIdx? (fun r => r.emoji == emoji) with
  | some idx =>
    match reactions[idx]? with
    | some existing =>
      if existing.hasUser then
        if decide (existing.count ≤ 1) && !existing.hasAdmin then
          reactions.eraseIdx idx
        else
          reactions.set idx { existing with count := existing.count - 1, hasUser := false }
      else
        (reactions.eraseIdx idx).filter (fun r => !r.hasUser) ++
          [{ existing with count := existing.count + 1, hasUser := true }]
    | none => reactions
  | none =>
    (reactions.map fun r =>
        if r.hasUser then { r with count := r.count - 1, hasUser := false } else r).filter
      (fun r => 0 < r.count) ++ [{ emoji := emoji, count := 1, hasAdmin := false, hasUser := true }]

/-- Number of reaction groups carrying the local party's flag. -/
def userFlagCount (rs : List Reaction) : Nat := (rs.filter (·.hasUser)).length

theorem userFlagCount_set_le (rs : List Reaction) (idx : Nat) (r' : Reaction)
    (h : r'.hasUser = false) : userFlagCount (rs.set idx r') ≤ userFlagCount rs := by
  induction rs generalizing idx with
  | nil => simp [userFlagCount]
  | cons x xs ih =>
    cases idx with
    | zero =>
      simp only [List.set, userFlagCount, List.filter, h]
      cases hx : x.hasUser <;> simp
    | succ n =>
      simp only [List.set, userFlagCount, List.filter]
      cases hx : x.hasUser <;> simpa [userFlagCount] using ih n

theorem userFlagCount_eraseIdx_le (rs : List Reaction) (idx : Nat) :
    userFlagCount (rs.eraseIdx idx) ≤ userFlagCount rs :=
  ((rs.eraseIdx_sublist idx).filter _).length_le

theorem userFlagCount_filter_not_append (l : List Reaction) (t : Reaction)
    (ht : t.hasUser = true) :
    userFlagCount (l.filter (fun r => !r.hasUser) ++ [t]) = 1 := by
  unfold userFlagCount
  rw [List.filter_append, List.filter_filter]
  have : (l.filter fun a => a.hasUser && !a.hasUser) = [] := by
    rw [List.filter_eq_nil_iff]; intro a _; cases a.hasUser <;> simp
  simp [this, ht]

/-- Counterexample for C6: the admin and the user both reacted 👍 (one group,
count 2, both flags), and the admin also reacted ❤️ (count 1). The user
toggles ❤️. The claim says the user's 👍 is decremented to count 1 with the
flag cleared, so a 👍 group survives; the code instead drops every
user-flagged group wholesale, losing the admin's 👍 — the result is the
single ❤️ group. -/
theorem applyReaction_drops_flagged_group_cex :
    applyReaction
        [{ emoji := "👍", count := 2, hasAdmin := true, hasUser := true },
         { emoji := "❤️", count := 1, hasAdmin := true, hasUser := false }] "❤️" =
      [{ emoji := "❤️", count := 2, hasAdmin := true, hasUser := true }] ∧
    ¬ ({ emoji := "👍", count := 1, hasAdmin := true, hasUser := false } ∈
        applyReaction
          [{ emoji := "👍", count := 2, hasAdmin := true, hasUser := true },
           { emoji := "❤️", count := 1, hasAdmin := true, hasUser := false }] "❤️") := by
  constructor
  · rfl
  · decide

/-- C6 amended: if the target emoji's group carries the party's flag, the
toggle decrements it and clears the flag, splicing the group out when its
count is at most one and the admin flag is clear; if the target group exists
without the party's flag, every group carrying the party's flag is removed
outright (not decremented) and the incremented, flagged target is appended;
only when the target emoji has no group are the party's flagged groups
decremented and pruned before a fresh count-1 flagged group is appended.
Starting from a list with at most one flagged group, at most one group
carries the party's flag afterwards. -/
theorem applyReaction_amended (rs : List Reaction) (e : String) :
    (∀ idx existing, rs.findIdx? (fun r => r.emoji == e) = some idx →
      rs[idx]? = some existing →
      (existing.hasUser = true →
        applyReaction rs e =
          if decide (existing.count ≤ 1) && !existing.hasAdmin then rs.eraseIdx idx
          else rs.set idx { existing with count := existing.count - 1, hasUser := false }) ∧
      (existing.hasUser = false →
        applyReaction rs e =
          (rs.eraseIdx idx).filter (fun r => !r.hasUser) ++
            [{ existing with count := existing.count + 1, hasUser := true }])) ∧
    (rs.findIdx? (fun r => r.emoji == e) = none →
      applyReaction rs e =
        (rs.map fun r =>
            if r.hasUser then { r with count := r.count - 1, hasUser := false } else r).filter
          (fun r => 0 < r.count) ++
          [{ emoji := e, count := 1, hasAdmin := false, hasUser := true }]) ∧
    (userFlagCount rs ≤ 1 → userFlagCount (applyReaction rs e) ≤ 1) := by
  refine ⟨?_, ?_, ?_⟩
  · intro idx existing hidx hget
    constructor
    · intro hu
      simp [applyReaction, hidx, hget, hu]
    · intro hu
      simp [applyReaction, hidx, hget, hu]
  · intro hidx
    simp [applyReaction, hidx]
  · intro hinv
    cases hidx : rs.findIdx? (fun r => r.emoji == e) with
    | none =>
      have heq : applyReaction rs e =
          (rs.map fun r =>
              if r.hasUser then { r with count := r.count - 1, hasUser := false } else r).filter
            (fun r => 0 < r.count) ++
            [{ emoji := e, count := 1, hasAdmin := false, hasUser := true }] := by
        simp [applyReaction, hidx]
      have hclean : ((rs.map fun r =>
          if r.hasUser then { r with count := r.count - 1, hasUser := false } else r).filter
            (fun r => 0 < r.count)).filter (·.hasUser) = [] := by
        rw [List.filter_eq_nil_iff]
        intro a ha
        have ha' := (List.mem_filter.mp ha).1
        obtain ⟨y, _, hy⟩ := List.mem_map.mp ha'
        subst hy
        cases hyu : y.hasUser <;> simp [hyu]
      rw [heq, userFlagCount, List.filter_append, hclean]
      simp
    | some idx =>
      cases hget : rs[idx]? with
      | none =>
        have heq : applyReaction rs e = rs := by simp [applyReaction, hidx, hget]
        rw [heq]; exact hinv
      | some existing =>
        cases hu : existing.hasUser with
        | true =>
          have heq : applyReaction rs e =
              if decide (existing.count ≤ 1) && !existing.hasAdmin then rs.eraseIdx idx
              else rs.set idx
                { existing with count := existing.count - 1, hasUser := false } := by
            simp [applyReaction, hidx, hget, hu]
          rw [heq]
          cases hc : decide (existing.count ≤ 1) && !existing.hasAdmin with
          | false =>
            simp only [Bool.false_eq_true, if_false]
            exact le_trans (userFlagCount_set_le rs idx _ rfl) hinv
          | true =>
            simp only [if_true]
            exact le_trans (userFlagCount_eraseIdx_le rs idx) hinv
        | false =>
          have heq : applyReaction rs e =
              (rs.eraseIdx idx).filter (fun r => !r.hasUser) ++
                [{ existing with count := existing.count + 1, hasUser := true }] := by
            simp [applyReaction, hidx, hget, hu]
          rw [heq, userFlagCount_filter_not_append _ _ rfl]

/-- Witness for C6's amended statement: toggling the user's sole 👍 (count 1,
no admin) removes the group, and the flagged-group bound holds. -/
theorem applyReaction_amended_witness :
    applyReaction [{ emoji := "👍", count := 1, hasAdmin := false, hasUser := true }] "👍" = [] ∧
    userFlagCount
        (applyReaction [{ emoji := "👍", count := 1, hasAdmin := false, hasUser := true }] "👍") ≤
      1 := by
  have h := applyReaction_amended
    [{ emoji := "👍", count := 1, hasAdmin := false, hasUser := true }] "👍"
  constructor
  · have h1 := (h.1 0 { emoji := "👍", count := 1, hasAdmin := false, hasUser := true }
      (by decide) rfl).1 rfl
    simpa using h1
  · exact h.2.2 (by decide)

/-! ### Server-side message store

A conversation's `messages` table slice. SQL `ORDER BY created_at DESC` /
`ASC` are embedded as insertion sorts; `LIMIT n` as `List.take n`;
`WHERE created_at < t` as a list filter. Timestamps are `Int` milliseconds.
Reply/reaction side tables are embedded separately where a claim needs them.
-/

/-- A persisted message row (`SELECT id, content, is_admin, created_at`). -/
structure DbMsg where
  id : String
  content : String
  is_admin : Bool
  created_at : Int
deriving Repr, DecidableEq

/-- Insert into a list sorted by `created_at` descending. -/
def insertDesc (m : DbMsg) : List DbMsg → List DbMsg
  | [] => [m]
  | x :: xs => if x.created_at < m.created_at then m :: x :: xs else x :: insertDesc m xs

/-- Sort newest-first (`ORDER BY created_at DESC`). -/
def sortDesc (l : List DbMsg) : List DbMsg := l.foldr insertDesc []

/-- Insert into a list sorted by `created_at` ascending. -/
def insertAsc (m : DbMsg) : List DbMsg → List DbMsg
  | [] => [m]
  | x :: xs => if m.created_at < x.created_at then m :: x :: xs else x :: insertAsc m xs

/-- Sort oldest-first (`ORDER BY created_at ASC`). -/
def sortAsc (l : List DbMsg) : List DbMsg := l.foldr insertAsc []

theorem mem_insertDesc {a m : DbMsg} {l : List DbMsg} :
    a ∈ insertDesc m l ↔ a = m ∨ a ∈ l := by
  induction l with
  | nil => simp [insertDesc]
  | cons x xs ih =>
    by_cases h : x.created_at < m.created_at
    · simp [insertDesc, h]
    · simp [insertDesc, h, ih]
      tauto

theorem length_insertDesc (m : DbMsg) (l : List DbMsg) :
    (insertDesc m l).length = l.length + 1 := by
  induction l with
  | nil => rfl
  | cons x xs ih =>
    by_cases h : x.created_at < m.created_at
    · simp [insertDesc, h]
    · simp [insertDesc, h, ih]

theorem length_sortDesc (l : List DbMsg) : (sortDesc l).length = l.length := by
  induction l with
  | nil => rfl
  | cons x xs ih => simp [sortDesc, List.foldr] at ih ⊢; rw [length_insertDesc, ih]

theorem mem_sortDesc {a : DbMsg} {l : List DbMsg} : a ∈ sortDesc l ↔ a ∈ l := by
  induction l with
  | nil => simp [sortDesc]
  | cons x xs ih =>
    simp only [sortDesc, List.foldr] at ih ⊢
    rw [mem_insertDesc, ih]
    simp

theorem pairwise_insertDesc (m : DbMsg) (l : List DbMsg)
    (h : l.Pairwise (fun a b => b.created_at ≤ a.created_at)) :
    (insertDesc m l).Pairwise (fun a b => b.created_at ≤ a.created_at) := by
  induction l with
  | nil => simp [insertDesc]
  | cons x xs ih =>
    rcases List.pairwise_cons.mp h with ⟨hx, hxs⟩
    by_cases hlt : x.created_at < m.created_at
    · simp only [insertDesc, hlt, if_true]
      refine List.pairwise_cons.mpr ⟨?_, h⟩
      intro b hb
      rcases List.mem_cons.mp hb with hb | hb
      · subst hb; exact le_of_lt hlt
      · exact le_trans (hx b hb) (le_of_lt hlt)
    · simp only [insertDesc, hlt, if_false]
      refine List.pairwise_cons.mpr ⟨?_, ih hxs⟩
      intro b hb
      rcases mem_insertDesc.mp hb with hb | hb
      · subst hb; omega
      · exact hx b hb

theorem pairwise_sortDesc (l : List DbMsg) :
    (sortDesc l).Pairwise (fun a b => b.created_at ≤ a.created_at) := by
  induction l with
  | nil => simp [sortDesc]
  | cons x xs ih =>
    simp only [sortDesc, List.foldr] at ih ⊢
    exact pairwise_insertDesc x _ ih

/-! ### Typing and presence freshness -/

/-- Typing freshness window of the messages GET route: the SQL predicate is
`updated_at > now() - interval '3 seconds'`. -/
def TYPING_WINDOW_MS : Int := 3000

/-- Online window of the admin status route (`ONLINE_THRESHOLD_MS`). -/
def ONLINE_THRESHOLD_MS : Int := 30000

/-- Read-time typing freshness: `updated_at > now() - interval '3 seconds'`. -/
def typingFresh (updatedAt now : Int) : Bool := decide (now - TYPING_WINDOW_MS < updatedAt)

/-- Read-time presence: `(now - lastSeen) < ONLINE_THRESHOLD_MS`. -/
def adminOnline (lastSeen now : Int) : Bool := decide (now - lastSeen < ONLINE_THRESHOLD_MS)

/-- The `adminTyping` flag of a GET response, from the admin's typing row
for the conversation (if any): fresh rows read as typing, stale or absent
rows as not typing — no explicit clear is needed. -/
def adminTypingRead (typingRow : Option Int) (now : Int) : Bool :=
  match typingRow with
  | some t => typingFresh t now
  | none => false

/-! ### Claim C7: typing freshness decay -/

/-- C7: typing freshness is a pure (shift-invariant) function of now minus
the last heartbeat: a heartbeat at `T` reads as typing at `T+1 s` and
`T+2.9 s`, and as not typing at `T+10 s` with no explicit clear; the 3-second
typing window is strictly shorter than the 30-second online window. -/
theorem typing_freshness_decay (T : Int) :
    typingFresh T (T + 1000) = true ∧
    typingFresh T (T + 2900) = true ∧
    typingFresh T (T + 10000) = false ∧
    (∀ T' d : Int, typingFresh T (T + d) = typingFresh T' (T' + d)) ∧
    TYPING_WINDOW_MS < ONLINE_THRESHOLD_MS := by
  refine ⟨?_, ?_, ?_, ?_, by decide⟩
  · simp only [typingFresh, TYPING_WINDOW_MS, decide_eq_true_eq]; omega
  · simp only [typingFresh, TYPING_WINDOW_MS, decide_eq_true_eq]; omega
  · simp only [typingFresh, TYPING_WINDOW_MS, decide_eq_false_iff_not]; omega
  · intro T' d
    simp only [typingFresh, TYPING_WINDOW_MS]
    rw [decide_eq_decide]
    omega

/-! ### Sync protocol read modes (GET /api/chat/messages) -/

/-- Backward pagination branch (`before = messageId`): resolve the cursor's
timestamp (404-free: the conversation is already checked); if the cursor id
is not in the conversation answer `Invalid cursor` (HTTP 400); otherwise
take the newest `limit + 1` strictly-older rows, report `hasMore` when the
extra row exists, and return the first `limit` of them reversed to
chronological order. -/
def getBefore (msgs : List DbMsg) (beforeId : String) (limit : Nat) :
    Except String (List DbMsg × Bool) :=
  match msgs.find? (fun m => m.id == beforeId) with
  | none => .error "Invalid cursor"
  | some bm =>
    let rows := (sortDesc (msgs.filter (fun m => m.created_at < bm.created_at))).take (limit + 1)
    .ok ((rows.take limit).reverse, decide (limit < rows.length))

/-- Forward poll branch (`after = messageId`): if the cursor id is not in
the conversation the row lookup is empty and the branch falls through to an
empty message list (no error); otherwise return up to `MAX_PAGE_SIZE = 50`
strictly-newer rows in chronological order. -/
def getAfter (msgs : List DbMsg) (afterId : String) : List DbMsg :=
  match msgs.find? (fun m => m.id == afterId) with
  | none => []
  | some am => (sortAsc (msgs.filter (fun m => am.created_at < m.created_at))).take 50

/-- Initial/default branch: newest `limit + 1` rows, `hasMore` from the
extra row, first `limit` reversed to chronological order. -/
def getInitial (msgs : List DbMsg) (limit : Nat) : List DbMsg × Bool :=
  let rows := (sortDesc msgs).take (limit + 1)
  ((rows.take limit).reverse, decide (limit < rows.length))

/-- The GET response body: `{ messages, adminTyping, hasMore }`. -/
structure GetResp where
  messages : List DbMsg
  adminTyping : Bool
  hasMore : Bool
deriving Repr, DecidableEq

/-- The GET handler's mode dispatch after auth and conversation-ownership
checks: `before` (truthy) takes priority, then `after` (truthy), then the
initial page. `hasMore` stays `false` in the `after` branch. `typingRow` is
the admin's typing-status timestamp for this conversation, if a row exists. -/
def getMessages (msgs : List DbMsg) (limit : Nat) (before after : Option String)
    (typingRow : Option Int) (now : Int) : Except String GetResp :=
  if strTruthy before then
    match getBefore msgs (before.getD "") limit with
    | .error e => .error e
    | .ok (page, hm) => .ok ⟨page, adminTypingRead typingRow now, hm⟩
  else if strTruthy after then
    .ok ⟨getAfter msgs (after.getD ""), adminTypingRead typingRow now, false⟩
  else
    let (page, hm) := getInitial msgs limit
    .ok ⟨page, adminTypingRead typingRow now, hm⟩

/-! ### Claim C4: backward pagination contract -/

/-- C4: with `before = bid`, a cursor id absent from the conversation fails
with `Invalid cursor` (HTTP 400); an existing cursor yields the up-to-`limit`
messages strictly older than the cursor's timestamp in chronological order
(newest-first fetch of `limit + 1` rows, truncated, reversed), with
`hasMore` true iff the extra row existed; with the oldest message's id as
cursor the page is empty and `hasMore` is false. -/
theorem getBefore_contract (msgs : List DbMsg) (bid : String) (limit : Nat) :
    ((∀ m ∈ msgs, m.id ≠ bid) → getBefore msgs bid limit = .error "Invalid cursor") ∧
    (∀ bm, msgs.find? (fun m => m.id == bid) = some bm →
      ∃ page hasMore, getBefore msgs bid limit = .ok (page, hasMore) ∧
        (∀ m ∈ page, m.created_at < bm.created_at) ∧
        page.length =
          min limit (msgs.filter (fun m => m.created_at < bm.created_at)).length ∧
        page.Pairwise (fun a b => a.created_at ≤ b.created_at) ∧
        (hasMore = true ↔
          limit < (msgs.filter (fun m => m.created_at < bm.created_at)).length) ∧
        ((∀ m ∈ msgs, bm.created_at ≤ m.created_at) → page = [] ∧ hasMore = false)) := by
  constructor
  · intro h
    have hfind : msgs.find? (fun m => m.id == bid) = none := by
      rw [List.find?_eq_none]
      intro m hm
      simp [h m hm]
    simp [getBefore, hfind]
  · intro bm hfind
    refine ⟨(((sortDesc (msgs.filter fun m => m.created_at < bm.created_at)).take
        (limit + 1)).take limit).reverse,
      decide (limit <
        ((sortDesc (msgs.filter fun m => m.created_at < bm.created_at)).take
          (limit + 1)).length),
      by simp [getBefore, hfind], ?_, ?_, ?_, ?_, ?_⟩
    · intro m hm
      have h1 : m ∈ (sortDesc (msgs.filter fun m => m.created_at < bm.created_at)).take
          (limit + 1) := by
        have := List.mem_reverse.mp hm
        exact (List.take_sublist _ _).subset this
      have h2 : m ∈ msgs.filter fun m => m.created_at < bm.created_at :=
        mem_sortDesc.mp ((List.take_sublist _ _).subset h1)
      simpa using (List.mem_filter.mp h2).2
    · simp only [List.length_reverse, List.length_take, length_sortDesc,
        List.length_filter_le]
      have := (msgs.filter fun m => m.created_at < bm.created_at).length
      omega
    · rw [List.pairwise_reverse]
      exact List.Pairwise.sublist
        ((List.take_sublist _ _).trans (List.take_sublist _ _)) (pairwise_sortDesc _)
    · rw [decide_eq_true_eq]
      rw [List.length_take, length_sortDesc]
      omega
    · intro hold
      have hnil : (msgs.filter fun m => m.created_at < bm.created_at) = [] := by
        rw [List.filter_eq_nil_iff]
        intro m hm
        simp only [decide_eq_true_eq, not_lt]
        exact hold m hm
      rw [hnil]
      constructor
      · simp [sortDesc]
      · simp [sortDesc]

/-- Witness for C4: a nonexistent cursor fails, and the oldest message's own
id as cursor returns an empty page with `hasMore = false`. -/
theorem getBefore_contract_witness :
    getBefore [⟨"m1", "a", false, 100⟩] "zz" 25 = .error "Invalid cursor" ∧
    getBefore [⟨"m1", "a", false, 100⟩] "m1" 25 = .ok ([], false) := by
  constructor
  · exact (getBefore_contract [⟨"m1", "a", false, 100⟩] "zz" 25).1 (by decide)
  · obtain ⟨page, hasMore, hok, _, _, _, _, hold⟩ :=
      (getBefore_contract [⟨"m1", "a", false, 100⟩] "m1" 25).2 ⟨"m1", "a", false, 100⟩
        (by decide)
    obtain ⟨hp, hh⟩ := hold (by decide)
    rw [hok, hp, hh]

/-! ### Claim C9: asymmetric cursor errors -/

/-- C9: the same nonexistent cursor id fails as a `before` parameter with
`Invalid cursor` but silently degrades as an `after` parameter: the GET
answers HTTP 200 with an empty message list (plus the typing flag). -/
theorem cursor_error_asymmetry (msgs : List DbMsg) (x : String) (limit : Nat)
    (typingRow : Option Int) (now : Int)
    (hx : ∀ m ∈ msgs, m.id ≠ x) (hne : x ≠ "") :
    getMessages msgs limit (some x) none typingRow now = .error "Invalid cursor" ∧
    getMessages msgs limit none (some x) typingRow now =
      .ok ⟨[], adminTypingRead typingRow now, false⟩ := by
  have hfind : msgs.find? (fun m => m.id == x) = none := by
    rw [List.find?_eq_none]
    intro m hm
    simp [hx m hm]
  have hxe : x.isEmpty = false := by
    rcases h : x.isEmpty with _ | _
    · rfl
    · exact absurd ((String.isEmpty_iff x).mp h) hne
  have htruthy : strTruthy (some x) = true := by simp [strTruthy, hxe]
  constructor
  · simp [getMessages, htruthy, getBefore, hfind]
  · rw [getMessages, show strTruthy none = false from rfl]
    simp [htruthy, getAfter, hfind]

/-- Witness for C9: the concrete asymmetry on a one-message conversation. -/
theorem cursor_error_asymmetry_witness :
    getMessages [⟨"m1", "a", false, 100⟩] 25 (some "zz") none none 0 =
      .error "Invalid cursor" ∧
    getMessages [⟨"m1", "a", false, 100⟩] 25 none (some "zz") none 0 =
      .ok ⟨[], adminTypingRead none 0, false⟩ :=
  cursor_error_asymmetry [⟨"m1", "a", false, 100⟩] "zz" 25 none 0 (by decide) (by decide)

/-! ### Server-side reaction toggle

The visitor route `POST /api/chat/reactions` and the admin route
`POST /api/admin/reactions` run the same toggle on the `message_reactions`
rows of one message; the party predicate is
`user_id = $uid AND is_admin = false` for a visitor and `is_admin = true`
for the admin. We embed the table slice for one fixed message and a single
toggle covering both routes, parameterized by the acting party.
-/

/-- The acting party: a specific visitor, or the single operator. -/
inductive Party where
  | visitor (uid : String)
  | admin
deriving Repr, DecidableEq

/-- One `message_reactions` row for the fixed message. Admin rows carry
`user_id = NULL, is_admin = true`. -/
structure RRow where
  rid : Nat
  user_id : Option String
  is_admin : Bool
  emoji : String
deriving Repr, DecidableEq

/-- The reaction rows of one message, plus the next fresh row id. -/
structure RState where
  rows : List RRow
  nextId : Nat
deriving Repr, DecidableEq

/-- The fixed allowed emoji set (`ALLOWED_EMOJIS` in both routes). -/
def ALLOWED_EMOJIS : List String := ["👍", "❤️", "😂", "😮", "😢"]

/-- The SQL party predicate of the two routes. -/
def rowIsParty : Party → RRow → Bool
  | .visitor uid, r => r.user_id == some uid && !r.is_admin
  | .admin, r => r.is_admin

/-- The row a toggle inserts for the acting party. -/
def partyRow (p : Party) (rid : Nat) (emoji : String) : RRow :=
  match p with
  | .visitor uid => ⟨rid, some uid, false, emoji⟩
  | .admin => ⟨rid, none, true, emoji⟩

/-- The acting party's rows on the message. -/
def partyRows (p : Party) (rows : List RRow) : List RRow := rows.filter (rowIsParty p)

inductive ToggleAction where
  | added
  | removed
deriving Repr, DecidableEq

/-- The toggle of both reaction routes: reject emojis outside the allowed
set (`Invalid emoji`, HTTP 400); if the party already has a row with this
emoji, delete that row (`removed`); otherwise delete every row of that party
on this message and insert the new one (`added`). -/
def toggleReaction (p : Party) (emoji : String) (st : RState) :
    Except String (RState × ToggleAction) :=
  if !ALLOWED_EMOJIS.contains emoji then .error "Invalid emoji"
  else
    match st.rows.filter (fun r => rowIsParty p r && r.emoji == emoji) with
    | e :: _ =>
      .ok ({ st with rows := st.rows.filter (fun r => r.rid != e.rid) }, .removed)
    | [] =>
      .ok ({ rows := st.rows.filter (fun r => !rowIsParty p r) ++
                [partyRow p st.nextId emoji],
             nextId := st.nextId + 1 }, .added)

/-- Sequential execution of a list of toggles by one party; a rejected
toggle (HTTP 400) leaves the stored state unchanged. -/
def runToggles (p : Party) (es : List String) (st : RState) : RState :=
  es.foldl (fun s e =>
    match toggleReaction p e s with
    | .ok (s', _) => s'
    | .error _ => s) st

/-- The distinct emojis present on the message (the `GROUP BY emoji` keys). -/
def groupEmojis (rows : List RRow) : List String := (rows.map (·.emoji)).dedup

/-- Aggregated count of one emoji group (`COUNT(*)`). -/
def groupCount (rows : List RRow) (e : String) : Nat :=
  (rows.filter (·.emoji == e)).length

/-- The party's flag on one emoji group (`BOOL_OR` of the party predicate
over the group's rows). -/
def groupHasParty (p : Party) (rows : List RRow) (e : String) : Bool :=
  rows.any (fun r => r.emoji == e && rowIsParty p r)

theorem filter_party_and (p : Party) (q : RRow → Bool) (l : List RRow) :
    l.filter (fun r => rowIsParty p r && q r) = (partyRows p l).filter q := by
  unfold partyRows
  rw [List.filter_filter]
  exact List.filter_congr (fun x _ => Bool.and_comm _ _)

theorem partyRows_filter (p : Party) (q : RRow → Bool) (l : List RRow) :
    partyRows p (l.filter q) = (partyRows p l).filter q := by
  unfold partyRows
  rw [List.filter_filter, List.filter_filter]
  exact List.filter_congr (fun x _ => Bool.and_comm _ _)

theorem rowIsParty_partyRow (p : Party) (n : Nat) (e : String) :
    rowIsParty p (partyRow p n e) = true := by
  cases p <;> simp [rowIsParty, partyRow]

theorem partyRows_cleared (p : Party) (l : List RRow) :
    partyRows p (l.filter fun r => !rowIsParty p r) = [] := by
  rw [partyRows_filter, List.filter_eq_nil_iff]
  intro r hr
  have := (List.mem_filter.mp hr).2
  simp only [partyRows] at hr
  rw [(List.mem_filter.mp hr).2]
  simp

/-- Case analysis of a toggle on an allowed emoji: either the party already
has this emoji and the row is deleted (`removed`), or the party's rows are
all deleted and the new row inserted (`added`). -/
theorem toggleReaction_cases (p : Party) (e : String) (st : RState)
    (hall : e ∈ ALLOWED_EMOJIS) :
    (∃ r0 rest, st.rows.filter (fun r => rowIsParty p r && r.emoji == e) = r0 :: rest ∧
      toggleReaction p e st =
        .ok ({ st with rows := st.rows.filter (fun r => r.rid != r0.rid) }, .removed)) ∨
    (st.rows.filter (fun r => rowIsParty p r && r.emoji == e) = [] ∧
      toggleReaction p e st =
        .ok ({ rows := st.rows.filter (fun r => !rowIsParty p r) ++
                  [partyRow p st.nextId e],
               nextId := st.nextId + 1 }, .added)) := by
  have hc : (!ALLOWED_EMOJIS.contains e) = false := by
    show (!List.elem e ALLOWED_EMOJIS) = false
    rw [List.elem_eq_true_of_mem hall]
    rfl
  unfold toggleReaction
  rw [hc]
  simp only [Bool.false_eq_true, if_false]
  rcases hex : st.rows.filter (fun r => rowIsParty p r && r.emoji == e) with _ | ⟨r0, rest⟩
  · right
    exact ⟨rfl, rfl⟩
  · left
    exact ⟨r0, rest, rfl, rfl⟩

/-- One successful toggle preserves "the party has at most one row". -/
theorem partyRows_le_one_toggle (p : Party) (e : String) (st st' : RState)
    (act : ToggleAction) (h : toggleReaction p e st = .ok (st', act))
    (hinv : (partyRows p st.rows).length ≤ 1) :
    (partyRows p st'.rows).length ≤ 1 := by
  by_cases hall : e ∈ ALLOWED_EMOJIS
  · rcases toggleReaction_cases p e st hall with ⟨r0, rest, _, heq⟩ | ⟨_, heq⟩
    · rw [heq] at h
      injection h with h'
      injection h' with h1 _
      subst h1
      rw [partyRows_filter]
      exact le_trans (List.length_filter_le _ _) hinv
    · rw [heq] at h
      injection h with h'
      injection h' with h1 _
      subst h1
      simp only [partyRows, List.filter_append] at *
      rw [← partyRows, partyRows_cleared]
      simp [rowIsParty_partyRow]
  · have hc : (!ALLOWED_EMOJIS.contains e) = true := by
      rcases hm : ALLOWED_EMOJIS.contains e with _ | _
      · rfl
      · exact absurd (List.mem_of_elem_eq_true hm) hall
    unfold toggleReaction at h
    rw [hc] at h
    simp at h

theorem partyRows_le_one_runToggles (p : Party) (es : List String) (st0 : RState)
    (h0 : (partyRows p st0.rows).length ≤ 1) :
    (partyRows p (runToggles p es st0).rows).length ≤ 1 := by
  induction es generalizing st0 with
  | nil => exact h0
  | cons e es ih =>
    simp only [runToggles, List.foldl]
    rcases htog : toggleReaction p e st0 with _ | ⟨st', act⟩
    · exact ih st0 h0
    · exact ih st' (partyRows_le_one_toggle p e st0 st' act htog h0)

theorem length_filter_le_one_of_unique {α : Type} (l : List α) (q : α → Bool)
    (hnd : l.Nodup) (huniq : ∀ a ∈ l, ∀ b ∈ l, q a = true → q b = true → a = b) :
    (l.filter q).length ≤ 1 := by
  rcases hf : l.filter q with _ | ⟨x, xs⟩
  · simp
  · rcases xs with _ | ⟨y, ys⟩
    · simp
    · exfalso
      have hx : x ∈ l.filter q := by rw [hf]; simp
      have hy : y ∈ l.filter q := by rw [hf]; simp
      have hxy : x = y :=
        huniq x (List.mem_filter.mp hx).1 y (List.mem_filter.mp hy).1
          (List.mem_filter.mp hx).2 (List.mem_filter.mp hy).2
      have hnd' : (x :: y :: ys).Nodup := hf ▸ hnd.filter q
      rw [List.nodup_cons] at hnd'
      exact hnd'.1 (hxy ▸ List.mem_cons_self y ys)

/-! ### Claim C2: server-side reaction single-ownership -/

/-- C2: after any finite sequence of toggles by one party with allowed
emojis, starting from a state where the party has at most one reaction row,
at most one emoji group carries the party's flag and any flagged group has
count at least 1; from a state where the party's sole active row reacts
with emoji `r.emoji`, toggling that emoji answers `removed` and deletes the
row, while toggling a different allowed emoji deletes the previous row,
inserts the new one, and answers `added`. -/
theorem server_reaction_single_ownership (p : Party) (es : List String) (st0 : RState)
    (h0 : (partyRows p st0.rows).length ≤ 1)
    (_hall : ∀ e ∈ es, e ∈ ALLOWED_EMOJIS) :
    ((partyRows p (runToggles p es st0).rows).length ≤ 1 ∧
      ((groupEmojis (runToggles p es st0).rows).filter
          (groupHasParty p (runToggles p es st0).rows)).length ≤ 1 ∧
      (∀ e, groupHasParty p (runToggles p es st0).rows e = true →
        1 ≤ groupCount (runToggles p es st0).rows e)) ∧
    (∀ st r, partyRows p st.rows = [r] → r.emoji ∈ ALLOWED_EMOJIS →
      ∃ st', toggleReaction p r.emoji st = .ok (st', .removed) ∧
        partyRows p st'.rows = []) ∧
    (∀ st r e', partyRows p st.rows = [r] → e' ∈ ALLOWED_EMOJIS → e' ≠ r.emoji →
      ∃ st', toggleReaction p e' st = .ok (st', .added) ∧
        partyRows p st'.rows = [partyRow p st.nextId e']) := by
  have hrun := partyRows_le_one_runToggles p es st0 h0
  refine ⟨⟨hrun, ?_, ?_⟩, ?_, ?_⟩
  · apply length_filter_le_one_of_unique _ _ (List.nodup_dedup _)
    intro e1 _ e2 _ h1 h2
    obtain ⟨r1, hr1m, hr1⟩ := List.any_eq_true.mp h1
    obtain ⟨r2, hr2m, hr2⟩ := List.any_eq_true.mp h2
    rw [Bool.and_eq_true] at hr1 hr2
    have hm1 : r1 ∈ partyRows p (runToggles p es st0).rows :=
      List.mem_filter.mpr ⟨hr1m, hr1.2⟩
    have hm2 : r2 ∈ partyRows p (runToggles p es st0).rows :=
      List.mem_filter.mpr ⟨hr2m, hr2.2⟩
    have h12 : r1 = r2 := by
      rcases hpr : partyRows p (runToggles p es st0).rows with _ | ⟨r, rest⟩
      · rw [hpr] at hm1; simp at hm1
      · have : rest = [] := by
          rw [hpr] at hrun; simp at hrun; exact hrun
        subst this
        rw [hpr] at hm1 hm2
        simp only [List.mem_singleton] at hm1 hm2
        rw [hm1, hm2]
    have he1 : e1 = r1.emoji := (beq_iff_eq.mp hr1.1).symm
    have he2 : e2 = r2.emoji := (beq_iff_eq.mp hr2.1).symm
    rw [he1, he2, h12]
  · intro e hflag
    obtain ⟨r, hrm, hr⟩ := List.any_eq_true.mp hflag
    rw [Bool.and_eq_true] at hr
    have : r ∈ (runToggles p es st0).rows.filter (·.emoji == e) :=
      List.mem_filter.mpr ⟨hrm, hr.1⟩
    unfold groupCount
    exact List.length_pos.mpr (List.ne_nil_of_mem this)
  · intro st r hpr hallr
    rcases toggleReaction_cases p r.emoji st hallr with ⟨r0, rest, hex, heq⟩ | ⟨hex, _⟩
    · have hexval : st.rows.filter (fun r' => rowIsParty p r' && r'.emoji == r.emoji) =
          [r] := by
        rw [filter_party_and, hpr]
        simp
      rw [hexval] at hex
      injection hex with hx1 hx2
      subst hx1; subst hx2
      refine ⟨_, heq, ?_⟩
      rw [partyRows_filter, hpr]
      simp
    · rw [filter_party_and, hpr] at hex
      simp at hex
  · intro st r e' hpr halle hne
    rcases toggleReaction_cases p e' st halle with ⟨r0, rest, hex, _⟩ | ⟨_, heq⟩
    · rw [filter_party_and, hpr] at hex
      have : (r.emoji == e') = false := by
        rcases hb : r.emoji == e' with _ | _
        · rfl
        · exact absurd (beq_iff_eq.mp hb).symm hne
      simp [this] at hex
    · refine ⟨_, heq, ?_⟩
      simp only [partyRows, List.filter_append]
      rw [← partyRows, partyRows_cleared]
      simp [rowIsParty_partyRow]

/-- Witness for C2: the visitor toggles 👍, then ❤️, then ❤️ again on an
initially reaction-free message. -/
theorem server_reaction_single_ownership_witness :
    (partyRows (.visitor "u1")
        (runToggles (.visitor "u1") ["👍", "❤️", "❤️"] ⟨[], 0⟩).rows).length ≤ 1 :=
  (server_reaction_single_ownership (.visitor "u1") ["👍", "❤️", "❤️"] ⟨[], 0⟩
    (by decide) (by decide)).1.1

/-! ### In-process rate limiter (src/lib/validation.ts)

`userMessageTimestamps` is a `Map<string, number[]>`; we embed it as an
association list keyed by user id. `checkRateLimit` filters the stored
timestamps down to the in-window ones; when 15 or more remain it answers
denied with `retryAfterMs = window - (now - oldest-in-window)` and — the
denial path returns before the `set` — leaves the map untouched; otherwise
it stores the filtered list plus `now` and answers allowed.
-/

abbrev RLState := List (String × List Int)

def RATE_LIMIT_WINDOW_MS : Int := 60000

def RATE_LIMIT_MAX_MESSAGES : Nat := 15

/-- `userMessageTimestamps.get(userId) || []`. -/
def rlLookup (st : RLState) (uid : String) : List Int :=
  match st.find? (fun kv => kv.1 == uid) with
  | some kv => kv.2
  | none => []

/-- `userMessageTimestamps.set(userId, ts)`. -/
def rlSet (st : RLState) (uid : String) (ts : List Int) : RLState :=
  if st.any (fun kv => kv.1 == uid) then
    st.map (fun kv => if kv.1 == uid then (uid, ts) else kv)
  else st ++ [(uid, ts)]

/-- `Math.min(...recentTimestamps)` (only applied to nonempty lists). -/
def listMinI : List Int → Int
  | [] => 0
  | x :: xs => xs.foldl min x

/-- The in-window timestamps (`recentTimestamps` in the source). -/
def rlRecent (st : RLState) (uid : String) (now : Int) : List Int :=
  (rlLookup st uid).filter fun ts => now - ts < RATE_LIMIT_WINDOW_MS

/-- `checkRateLimit(userId)`: result flag, optional `retryAfterMs`, and the
map after the call. -/
def checkRateLimit (st : RLState) (uid : String) (now : Int) :
    (Bool × Option Int) × RLState :=
  let recent := rlRecent st uid now
  if RATE_LIMIT_MAX_MESSAGES ≤ recent.length then
    ((false, some (RATE_LIMIT_WINDOW_MS - (now - listMinI recent))), st)
  else
    ((true, none), rlSet st uid (recent ++ [now]))

theorem rlLookup_rlSet (st : RLState) (uid : String) (ts : List Int) :
    rlLookup (rlSet st uid ts) uid = ts := by
  induction st with
  | nil => simp [rlSet, rlLookup]
  | cons kv rest ih =>
    rcases hkv : kv.1 == uid with _ | _
    · rcases hany : rest.any (fun kv => kv.1 == uid) with _ | _
      · have h1 : (kv :: rest).any (fun kv => kv.1 == uid) = false := by
          simp only [List.any_cons, hkv, hany, Bool.or_self]
        have h2 : rlSet rest uid ts = rest ++ [(uid, ts)] := by
          simp [rlSet, hany]
        simp only [rlSet, h1, Bool.false_eq_true, if_false, List.cons_append]
        rw [rlSet, hany] at ih
        simp only [Bool.false_eq_true, if_false] at ih
        simpa [rlLookup, List.find?, hkv] using ih
      · have h1 : (kv :: rest).any (fun kv => kv.1 == uid) = true := by
          simp [List.any_cons, hkv, hany]
        simp only [rlSet, h1, if_true, List.map_cons, hkv, Bool.false_eq_true, if_false]
        rw [rlSet, hany] at ih
        simp only [if_true] at ih
        simpa [rlLookup, List.find?, hkv] using ih
    · have h1 : (kv :: rest).any (fun kv => kv.1 == uid) = true := by
        simp [List.any_cons, hkv]
      simp only [rlSet, h1, if_true, List.map_cons, hkv]
      simp [rlLookup, List.find?]

theorem foldl_min_le_init (xs : List Int) (acc : Int) : xs.foldl min acc ≤ acc := by
  induction xs generalizing acc with
  | nil => simp
  | cons x xs ih =>
    simp only [List.foldl]
    exact le_trans (ih (min acc x)) (min_le_left acc x)

theorem foldl_min_le_mem (xs : List Int) (acc : Int) :
    ∀ t ∈ xs, xs.foldl min acc ≤ t := by
  induction xs generalizing acc with
  | nil => simp
  | cons x xs ih =>
    intro t ht
    rcases List.mem_cons.mp ht with ht | ht
    · subst ht
      exact le_trans (foldl_min_le_init xs (min acc t)) (min_le_right acc t)
    · exact ih (min acc x) t ht

theorem foldl_min_mem (xs : List Int) (acc : Int) :
    xs.foldl min acc = acc ∨ xs.foldl min acc ∈ xs := by
  induction xs generalizing acc with
  | nil => simp
  | cons x xs ih =>
    simp only [List.foldl]
    rcases ih (min acc x) with h | h
    · rcases le_total acc x with hax | hax
      · left; rw [h, min_eq_left hax]
      · right; rw [h, min_eq_right hax]; exact List.mem_cons_self x xs
    · right; exact List.mem_cons_of_mem x h

theorem listMinI_mem (l : List Int) (h : l ≠ []) : listMinI l ∈ l := by
  rcases l with _ | ⟨x, xs⟩
  · exact absurd rfl h
  · rcases foldl_min_mem xs x with h | h
    · simp [listMinI, h]
    · exact List.mem_cons_of_mem x (by simpa [listMinI] using h)

theorem listMinI_le (l : List Int) : ∀ t ∈ l, listMinI l ≤ t := by
  rcases l with _ | ⟨x, xs⟩
  · simp
  · intro t ht
    rcases List.mem_cons.mp ht with ht | ht
    · subst ht; exact foldl_min_le_init xs t
    · exact foldl_min_le_mem xs x t ht

/-! ### Claim C10: rate-limiter atomicity -/

/-- C10: a denied `checkRateLimit` call returns the map unchanged — no
timestamp is recorded, so rejected attempts never extend the penalty window
— and `retryAfterMs` is the window length minus the age of the oldest
in-window timestamp (which really is the oldest: it is a member of and a
lower bound of the in-window list); an allowed call records exactly the
in-window timestamps plus `now`. -/
theorem checkRateLimit_atomic (st : RLState) (uid : String) (now : Int) :
    (RATE_LIMIT_MAX_MESSAGES ≤ (rlRecent st uid now).length →
      checkRateLimit st uid now =
        ((false, some (RATE_LIMIT_WINDOW_MS - (now - listMinI (rlRecent st uid now)))),
          st) ∧
      listMinI (rlRecent st uid now) ∈ rlRecent st uid now ∧
      (∀ t ∈ rlRecent st uid now, listMinI (rlRecent st uid now) ≤ t)) ∧
    ((rlRecent st uid now).length < RATE_LIMIT_MAX_MESSAGES →
      (checkRateLimit st uid now).1.1 = true ∧
      rlLookup (checkRateLimit st uid now).2 uid = rlRecent st uid now ++ [now]) := by
  constructor
  · intro h
    refine ⟨by simp [checkRateLimit, h], ?_, listMinI_le _⟩
    apply listMinI_mem
    intro hnil
    rw [hnil] at h
    simp [RATE_LIMIT_MAX_MESSAGES] at h
  · intro h
    have h' : ¬ RATE_LIMIT_MAX_MESSAGES ≤ (rlRecent st uid now).length := by omega
    constructor
    · simp [checkRateLimit, h']
    · simp only [checkRateLimit, h', if_false]
      exact rlLookup_rlSet st uid _

/-- Witness for C10: a user with 15 in-window timestamps is denied with the
map unchanged and `retryAfterMs = 59900`; a fresh user is allowed and the
call records the single timestamp. -/
theorem checkRateLimit_atomic_witness :
    checkRateLimit [("u", [0, 1, 2, 3, 4, 5, 6, 7, 8, 9, 10, 11, 12, 13, 14])] "u" 100 =
      ((false, some 59900), [("u", [0, 1, 2, 3, 4, 5, 6, 7, 8, 9, 10, 11, 12, 13, 14])]) ∧
    (checkRateLimit [] "u" 100).1.1 = true ∧
    rlLookup (checkRateLimit [] "u" 100).2 "u" = [100] := by
  refine ⟨?_, ?_⟩
  · have h := (checkRateLimit_atomic
      [("u", [0, 1, 2, 3, 4, 5, 6, 7, 8, 9, 10, 11, 12, 13, 14])] "u" 100).1 (by decide)
    rw [h.1]
    rfl
  · have h := (checkRateLimit_atomic [] "u" 100).2 (by decide)
    exact ⟨h.1, by rw [h.2]; rfl⟩

/-! ### Message write endpoint (POST /api/chat/messages)

The handler after session resolution: rate limit, content validation,
conversation-ownership check, reply-target check, row insert, conversation
bump, push notification. The push call is
`notifyAdminOfNewMessage(...).catch(() => {})` — not awaited and with every
rejection swallowed — so its outcome is embedded as an oracle argument the
handler never consults. The character class of the content regex relies on
Unicode properties, so it is abstracted as the `allowedChar` parameter.
-/

def MAX_MESSAGE_LENGTH : Nat := 500

/-- JS whitespace characters stripped by `String.prototype.trim` (the common
ASCII ones; the exotic Unicode space separators do not occur in the claims). -/
def isJsWhitespace (c : Char) : Bool :=
  c = ' ' || c = '\t' || c = '\n' || c = '\r' || c = '\x0b' || c = '\x0c'

/-- JS `content.trim()`, embedded structurally so that it evaluates. -/
def jsTrim (s : String) : String :=
  ⟨((s.toList.dropWhile isJsWhitespace).reverse.dropWhile isJsWhitespace).reverse⟩

/-- `validateMessageContent`: `none` means valid, `some err` the error. -/
def validateMessageContent (allowedChar : Char → Bool) (content : String) : Option String :=
  let trimmed := jsTrim content
  if trimmed.isEmpty then some "Message cannot be empty"
  else if MAX_MESSAGE_LENGTH < trimmed.length then
    some "Message exceeds 500 character limit"
  else if !(trimmed.toList.all allowedChar) then some "Message contains invalid characters"
  else none

/-- Outcome of the push side-channel call, as observed by its promise. -/
inductive PushOutcome where
  | delivered
  | failed
  | rejected
deriving Repr, DecidableEq

/-- Everything the POST handler's run determines: the HTTP status, the JSON
error, the returned message, the conversation's stored rows afterwards, and
the rate-limiter map afterwards. -/
structure PostOutcome where
  status : Nat
  error : Option String
  message : Option DbMsg
  storedMessages : List DbMsg
  rateState : RLState
deriving Repr, DecidableEq

/-- The POST handler after auth: `uid` the caller, `convOwned` the result of
the conversation-ownership query, `msgs` the conversation's rows, `newId`
the id the insert returns, `push` the push side-channel's eventual outcome. -/
def sendMessagePost (allowedChar : Char → Bool) (rl : RLState) (uid : String)
    (now : Int) (convOwned : Bool) (content : String) (replyToId : Option String)
    (msgs : List DbMsg) (newId : String) (push : PushOutcome) : PostOutcome :=
  match checkRateLimit rl uid now with
  | ((false, _), rl') => ⟨429, some "Too many messages", none, msgs, rl'⟩
  | ((true, _), rl') =>
    let message := jsTrim content
    match validateMessageContent allowedChar message with
    | some err => ⟨400, some err, none, msgs, rl'⟩
    | none =>
      if !convOwned then ⟨404, some "Not found", none, msgs, rl'⟩
      else if strTruthy replyToId &&
          !(msgs.any fun m => m.id == replyToId.getD "") then
        ⟨400, some "Reply target not found", none, msgs, rl'⟩
      else
        let nm : DbMsg := ⟨newId, message, false, now⟩
        ⟨200, none, some nm, msgs ++ [nm], rl'⟩

/-! ### Claim C8: push failure never fails the write -/

/-- C8: the handler's entire outcome — status, error, returned message,
stored rows, rate state — is identical for any two push outcomes (the call
is fired without awaiting and its rejection is swallowed), and a successful
(HTTP 200) run returns exactly the freshly inserted message and appends it
to the store, independently of the push outcome. -/
theorem push_outcome_independent (allowedChar : Char → Bool) (rl : RLState)
    (uid : String) (now : Int) (convOwned : Bool) (content : String)
    (replyToId : Option String) (msgs : List DbMsg) (newId : String)
    (p q : PushOutcome) :
    sendMessagePost allowedChar rl uid now convOwned content replyToId msgs newId p =
      sendMessagePost allowedChar rl uid now convOwned content replyToId msgs newId q ∧
    ((sendMessagePost allowedChar rl uid now convOwned content replyToId msgs
        newId p).status = 200 →
      (sendMessagePost allowedChar rl uid now convOwned content replyToId msgs
          newId p).message = some ⟨newId, jsTrim content, false, now⟩ ∧
      (sendMessagePost allowedChar rl uid now convOwned content replyToId msgs
          newId p).storedMessages = msgs ++ [⟨newId, jsTrim content, false, now⟩]) := by
  constructor
  · rfl
  · intro h200
    rcases hrc : checkRateLimit rl uid now with ⟨⟨b, retry⟩, rl'⟩
    rcases b with _ | _
    · simp [sendMessagePost, hrc] at h200
    · rcases hv : validateMessageContent allowedChar (jsTrim content) with _ | err
      · rcases hconv : convOwned with _ | _
        · simp [sendMessagePost, hrc, hv, hconv] at h200
        · rcases hrep : strTruthy replyToId &&
              !(msgs.any fun m => m.id == replyToId.getD "") with _ | _
          · simp [sendMessagePost, hrc, hv, hconv, hrep]
          · simp [sendMessagePost, hrc, hv, hconv, hrep] at h200
      · simp [sendMessagePost, hrc, hv] at h200

/-- Witness for C8: a valid send of `"hi"` yields the same 200 response
whether the push promise fails or resolves, returning and storing the
inserted row. -/
theorem push_outcome_independent_witness :
    sendMessagePost (fun _ => true) [] "u" 0 true "hi" none [] "m1" .failed =
      sendMessagePost (fun _ => true) [] "u" 0 true "hi" none [] "m1" .delivered ∧
    (sendMessagePost (fun _ => true) [] "u" 0 true "hi" none [] "m1" .failed).message =
      some ⟨"m1", jsTrim "hi", false, 0⟩ ∧
    (sendMessagePost (fun _ => true) [] "u" 0 true "hi" none [] "m1" .failed).storedMessages =
      [] ++ [⟨"m1", jsTrim "hi", false, 0⟩] := by
  have h := push_outcome_independent (fun _ => true) [] "u" 0 true "hi" none [] "m1"
    .failed .delivered
  exact ⟨h.1, h.2 (by decide)⟩

end Rorchat
